import Mathlib

/-!
Verification of the secretbox construction (src/secretbox/secretbox.go).

Bytes are modelled as `Nat`; byte sequences as `List Nat`.  Go fixed-size
arrays (`[16]byte`, `[32]byte`, `[64]byte`) become lists of that length,
with Go's `copy` into a zero-initialized fixed array modelled by `fixedCopy`.
Go slices returned as `nil` on failure are modelled by `Option`.

The external stream-cipher primitives (`salsa.HSalsa20` and the raw Salsa20
keystream underlying `salsa.XORKeyStream`) live outside this repository and
are treated as an abstract adapter, per the spec's Primitive Adapter
interface: a `Primitives` structure supplies the HSalsa20 derivation, the
per-index keystream byte, and the one-time-authenticator `Sum`.
`salsa.XORKeyStream(out, in, counter, key)` XORs `in` with `len(in)` bytes of
keystream determined by `(counter, key)` and the byte position; this is
embedded as `xorKeyStream`.
-/

namespace Secretbox

/-- Abstract primitive adapter: HSalsa20 sub-key derivation
(16-byte h-nonce, 32-byte key → 32-byte sub-key), the Salsa20 keystream byte
at a given index for a 16-byte counter and 32-byte sub-key, and the
one-time-authenticator `Sum` (message, 32-byte key → 16-byte tag).
`sum_len` records that Go's `onetimeauth.Sum` returns a fixed-size
`[Size]byte` value. -/
structure Primitives where
  hSalsa20 : List Nat → List Nat → List Nat
  streamByte : List Nat → List Nat → Nat → Nat
  sum : List Nat → List Nat → List Nat
  sum_len : ∀ msg key, (sum msg key).length = 16

/-- Modelled from the spec: `onetimeauth.Size`, the one-time authenticator
tag size (16 bytes in the reference primitive); the onetimeauth package is
not under src/. -/
def onetimeauthSize : Nat := 16

/-- Overhead is the number of bytes of overhead when boxing a message
(`const Overhead = onetimeauth.Size`). -/
def Overhead : Nat := onetimeauthSize

/-- Go `copy` of `src` into a freshly zeroed fixed-size buffer of length
`n`: copies `min n src.length` bytes, the remainder stays zero. -/
def fixedCopy (n : Nat) (src : List Nat) : List Nat :=
  src.take n ++ List.replicate (n - src.length) 0

/-- The raw Salsa20 keystream of `n` bytes under `(counter, subKey)`. -/
def keystream (P : Primitives) (counter subKey : List Nat) (n : Nat) :
    List Nat :=
  (List.range n).map (P.streamByte counter subKey)

/-- `salsa.XORKeyStream(out, src, counter, subKey)`: XORs `src` with
`src.length` bytes of keystream. -/
def xorKeyStream (P : Primitives) (counter subKey src : List Nat) :
    List Nat :=
  List.zipWith Nat.xor src (keystream P counter subKey src.length)

/-- Modelled from the spec: `onetimeauth.Verify(tag, msg, key)` recomputes
`Sum(msg, key)` and compares it with `tag` in constant time; the onetimeauth
package is not under src/. -/
def verify (P : Primitives) (tag msg key : List Nat) : Bool :=
  tag == P.sum msg key

/-- `setup` produces a sub-key and Salsa20 counter given a nonce and key:
`hNonce` is the first 16 nonce bytes, the sub-key is
`HSalsa20(hNonce, key)`, and the counter is the final 8 nonce bytes copied
into a zeroed 16-byte array. -/
def setup (P : Primitives) (nonce key : List Nat) : List Nat × List Nat :=
  let hNonce := fixedCopy 16 nonce
  let subKey := P.hSalsa20 hNonce key
  let counter := fixedCopy 16 (nonce.drop 16)
  (subKey, counter)

/-- `sliceForAppend(in, n)` returns `in` followed by `n` fresh bytes, and
the tail of the extra bytes (fresh bytes modelled as zeros; every caller
overwrites the whole tail before returning). -/
def sliceForAppend (inp : List Nat) (n : Nat) : List Nat × List Nat :=
  let head := inp ++ List.replicate n 0
  (head, head.drop inp.length)

/-- `Seal(out, message, nonce, key)`: derives `(subKey, counter)` via
`setup`; generates the 64-byte first block by encrypting 64 zero bytes; the
Poly1305 key is its first 32 bytes; XORs up to 32 message bytes with
`firstBlock[32+i]`; encrypts the rest of the message with the counter's
byte 8 set to 1; computes the tag over the ciphertext body and places it
before the body.  The in-place writes into the `sliceForAppend` tail are
composed functionally: the returned list is
`out ++ tag ++ ciphertext body`. -/
def Seal (P : Primitives) (out message nonce key : List Nat) : List Nat :=
  let s := setup P nonce key
  let subKey := s.1
  let counter := s.2
  let firstBlock := xorKeyStream P counter subKey (List.replicate 64 0)
  let poly1305Key := firstBlock.take 32
  let firstMessageBlock := message.take 32
  let c1 := List.zipWith Nat.xor (firstBlock.drop 32) firstMessageBlock
  let rest :=
    xorKeyStream P (counter.set 8 1) subKey
      (message.drop firstMessageBlock.length)
  let ciphertext := c1 ++ rest
  let tag := P.sum ciphertext poly1305Key
  out ++ tag ++ ciphertext

/-- `Open(out, box, nonce, key)`: rejects boxes shorter than `Overhead`;
derives the sub-key, counter, first block and Poly1305 key exactly as
`Seal`; copies the first `onetimeauth.Size` bytes of `box` as the claimed
tag and verifies it against the rest of `box`; on success decrypts by the
same keystream schedule and returns `out ++ plaintext`.  Go's
`(nil, false)` failure result is modelled as `(none, false)`. -/
def Open (P : Primitives) (out box nonce key : List Nat) :
    Option (List Nat) × Bool :=
  if box.length < Overhead then (none, false)
  else
    let s := setup P nonce key
    let subKey := s.1
    let counter := s.2
    let firstBlock := xorKeyStream P counter subKey (List.replicate 64 0)
    let poly1305Key := firstBlock.take 32
    let tag := fixedCopy onetimeauthSize box
    if ! verify P tag (box.drop onetimeauthSize) poly1305Key then
      (none, false)
    else
      let body := box.drop Overhead
      let firstMessageBlock := body.take 32
      let m1 := List.zipWith Nat.xor (firstBlock.drop 32) firstMessageBlock
      let rest :=
        xorKeyStream P (counter.set 8 1) subKey
          (body.drop firstMessageBlock.length)
      (some (out ++ m1 ++ rest), true)

/-- The first keystream block shared by `Seal` and `Open`: 64 zero bytes
encrypted under the freshly derived `(subKey, counter)`. -/
def firstBlockOf (P : Primitives) (nonce key : List Nat) : List Nat :=
  let s := setup P nonce key
  xorKeyStream P s.2 s.1 (List.replicate 64 0)

/-- The derived one-time-authenticator (Poly1305) key: the first 32 bytes
of the first keystream block. -/
def authKeyOf (P : Primitives) (nonce key : List Nat) : List Nat :=
  (firstBlockOf P nonce key).take 32

/-- The ciphertext body produced by `Seal` (everything after the tag):
the first `min 32 message.length` bytes XORed with the last 32 bytes of the
first block, followed by the remainder encrypted under the counter with
byte 8 set to 1. -/
def cipherBody (P : Primitives) (message nonce key : List Nat) : List Nat :=
  let s := setup P nonce key
  let fb := firstBlockOf P nonce key
  List.zipWith Nat.xor (fb.drop 32) (message.take 32) ++
    xorKeyStream P (s.2.set 8 1) s.1 (message.drop (message.take 32).length)

/-- `Open` with every slicing operation, index access and stream-cipher
destination length bounds-checked: `none` models an out-of-bounds access
(a Go panic), `some r` a normal return with result `r`.  The checks, in
source order: the slice `box[onetimeauth.Size:]`; the write loop
`out[i] = firstBlock[32+i] ^ x`, which needs every
`i < len(firstMessageBlock)` within `out` and `32+i` within `firstBlock`;
the slices `box[len(firstMessageBlock):]` and `out[len(firstMessageBlock):]`;
and `salsa.XORKeyStream`'s requirement that its destination be at least as
long as its source (it panics otherwise). -/
def OpenChecked (P : Primitives) (out box nonce key : List Nat) :
    Option (Option (List Nat) × Bool) :=
  if box.length < Overhead then some (none, false)
  else
    let s := setup P nonce key
    let subKey := s.1
    let counter := s.2
    let firstBlock := xorKeyStream P counter subKey (List.replicate 64 0)
    let poly1305Key := firstBlock.take 32
    let tag := fixedCopy onetimeauthSize box
    if onetimeauthSize ≤ box.length then
      let body := box.drop onetimeauthSize
      if ! verify P tag body poly1305Key then some (none, false)
      else
        let outLen := box.length - Overhead
        let firstMessageBlock := body.take 32
        if firstMessageBlock.length ≤ outLen ∧
            32 + firstMessageBlock.length ≤ firstBlock.length then
          let m1 :=
            List.zipWith Nat.xor (firstBlock.drop 32) firstMessageBlock
          if firstMessageBlock.length ≤ body.length then
            let restSrc := body.drop firstMessageBlock.length
            if outLen - firstMessageBlock.length < restSrc.length then none
            else
              let rest := xorKeyStream P (counter.set 8 1) subKey restSrc
              some (some (out ++ m1 ++ rest), true)
          else none
        else none
    else none

/-- A concrete primitive adapter used to evaluate the construction on
concrete inputs. -/
def testPrims : Primitives where
  hSalsa20 := fun hn k =>
    (List.range 32).map (fun i => (hn.sum + k.sum + i) % 256)
  streamByte := fun c sk i => (c.sum + 3 * sk.sum + 5 * i + 1) % 256
  sum := fun msg k =>
    (List.range 16).map (fun i => (msg.sum + k.sum + 7 * i) % 256)
  sum_len := fun msg k => by simp

/- Basic length lemmas. -/

theorem keystream_length (P : Primitives) (c sk : List Nat) (n : Nat) :
    (keystream P c sk n).length = n := by
  simp [keystream]

theorem xorKeyStream_length (P : Primitives) (c sk src : List Nat) :
    (xorKeyStream P c sk src).length = src.length := by
  simp [xorKeyStream, keystream_length]

theorem fixedCopy_length (n : Nat) (src : List Nat) :
    (fixedCopy n src).length = n := by
  simp [fixedCopy]
  omega

theorem firstBlockOf_length (P : Primitives) (nonce key : List Nat) :
    (firstBlockOf P nonce key).length = 64 := by
  simp [firstBlockOf, xorKeyStream_length]

theorem cipherBody_length (P : Primitives) (m nonce key : List Nat) :
    (cipherBody P m nonce key).length = m.length := by
  simp [cipherBody, xorKeyStream_length, firstBlockOf, keystream_length]

theorem fixedCopy_of_le (n : Nat) (src : List Nat) (h : n ≤ src.length) :
    fixedCopy n src = src.take n := by
  simp [fixedCopy]
  omega

theorem drop_length_take (l : List Nat) (n : Nat) :
    l.drop (l.take n).length = l.drop n := by
  rcases Nat.le_total n l.length with h | h
  · simp [List.length_take, Nat.min_eq_left h]
  · simp [List.length_take, Nat.min_eq_right h, List.drop_eq_nil_of_le h]

theorem zipWith_xor_cancel_left :
    ∀ a b : List Nat,
      List.zipWith Nat.xor a (List.zipWith Nat.xor a b) = b.take a.length
  | [], _ => by simp
  | _ :: _, [] => by simp
  | x :: a, y :: b => by
      have h : Nat.xor x (Nat.xor x y) = y := Nat.xor_cancel_left x y
      simp [h, zipWith_xor_cancel_left a b]

theorem zipWith_xor_cancel_right :
    ∀ b a : List Nat,
      List.zipWith Nat.xor (List.zipWith Nat.xor b a) a = b.take a.length
  | [], _ => by simp
  | _ :: _, [] => by simp
  | y :: b, x :: a => by
      have h : Nat.xor (Nat.xor y x) x = y := Nat.xor_cancel_right x y
      simp [h, zipWith_xor_cancel_right b a]

/-- `Seal` decomposed through the named derived quantities: the result is
the prior `out`, then the tag over the ciphertext body under the derived
authenticator key, then the ciphertext body. -/
theorem seal_eq (P : Primitives) (out message nonce key : List Nat) :
    Seal P out message nonce key =
      out ++ P.sum (cipherBody P message nonce key) (authKeyOf P nonce key)
        ++ cipherBody P message nonce key := rfl

theorem xorKeyStream_involutive (P : Primitives) (c sk src : List Nat) :
    xorKeyStream P c sk (xorKeyStream P c sk src) = src := by
  conv_lhs => rw [xorKeyStream, xorKeyStream_length]
  rw [xorKeyStream, zipWith_xor_cancel_right, keystream_length,
    List.take_length]

theorem zipWith_xor_zero_left (l : List Nat) :
    List.zipWith Nat.xor (List.replicate l.length 0) l = l := by
  induction l with
  | nil => rfl
  | cons x l ih =>
      have h : Nat.xor 0 x = x := Nat.zero_xor x
      simp [List.replicate_succ, ih, h]

theorem xorKeyStream_zeros (P : Primitives) (c sk : List Nat) (n : Nat) :
    xorKeyStream P c sk (List.replicate n 0) = keystream P c sk n := by
  rw [xorKeyStream, List.length_replicate]
  have h := zipWith_xor_zero_left (keystream P c sk n)
  rwa [keystream_length] at h

theorem cipherBody_take (P : Primitives) (m nonce key : List Nat) :
    (cipherBody P m nonce key).take 32 =
      List.zipWith Nat.xor ((firstBlockOf P nonce key).drop 32)
        (m.take 32) := by
  have hc1 : (List.zipWith Nat.xor ((firstBlockOf P nonce key).drop 32)
      (m.take 32)).length = min 32 m.length := by
    simp [firstBlockOf_length]
  rw [cipherBody]
  simp only [drop_length_take]
  rcases Nat.le_total m.length 32 with h | h
  · have hrest : m.drop 32 = [] := List.drop_eq_nil_of_le h
    simp only [hrest, xorKeyStream, List.zipWith_nil_left, List.append_nil]
    exact List.take_of_length_le (by omega)
  · rw [List.take_append_eq_append_take, hc1, Nat.min_eq_left h]
    simp [List.take_of_length_le, hc1, Nat.min_eq_left h]

theorem cipherBody_drop (P : Primitives) (m nonce key : List Nat) :
    (cipherBody P m nonce key).drop 32 =
      xorKeyStream P ((setup P nonce key).2.set 8 1) (setup P nonce key).1
        (m.drop 32) := by
  have hc1 : (List.zipWith Nat.xor ((firstBlockOf P nonce key).drop 32)
      (m.take 32)).length = min 32 m.length := by
    simp [firstBlockOf_length]
  rw [cipherBody]
  simp only [drop_length_take]
  rcases Nat.le_total m.length 32 with h | h
  · have hrest : m.drop 32 = [] := List.drop_eq_nil_of_le h
    simp only [hrest, xorKeyStream, List.zipWith_nil_left, List.append_nil]
    exact List.drop_eq_nil_of_le (by omega)
  · rw [List.drop_append_eq_append_drop, hc1, Nat.min_eq_left h]
    simp [List.drop_eq_nil_of_le, hc1, Nat.min_eq_left h]

/-- The short-box failure path of `Open`. -/
theorem open_of_short (P : Primitives) (out box nonce key : List Nat)
    (h : box.length < Overhead) :
    Open P out box nonce key = (none, false) := by
  simp [Open, h]

/-- The tag-mismatch failure path of `Open`. -/
theorem open_of_tag_ne (P : Primitives) (out box nonce key : List Nat)
    (h16 : Overhead ≤ box.length)
    (htag : box.take Overhead ≠
      P.sum (box.drop Overhead) (authKeyOf P nonce key)) :
    Open P out box nonce key = (none, false) := by
  have hfc : fixedCopy onetimeauthSize box = box.take Overhead :=
    fixedCopy_of_le _ _ h16
  have hv : verify P (box.take Overhead) (box.drop onetimeauthSize)
      ((xorKeyStream P (setup P nonce key).2 (setup P nonce key).1
        (List.replicate 64 0)).take 32) = false := by
    simpa [verify] using htag
  simp only [Open, hfc, hv]
  rw [if_neg (by omega)]
  simp

/-- The success path of `Open`: when the box is long enough and the claimed
tag matches the recomputed tag, `Open` decrypts with the first-block and
continuation keystream schedule. -/
theorem open_of_tag_eq (P : Primitives) (out box nonce key : List Nat)
    (h16 : Overhead ≤ box.length)
    (htag : box.take Overhead =
      P.sum (box.drop Overhead) (authKeyOf P nonce key)) :
    Open P out box nonce key =
      (some (out ++
        List.zipWith Nat.xor ((firstBlockOf P nonce key).drop 32)
          ((box.drop Overhead).take 32) ++
        xorKeyStream P ((setup P nonce key).2.set 8 1) (setup P nonce key).1
          ((box.drop Overhead).drop ((box.drop Overhead).take 32).length)),
       true) := by
  have hfc : fixedCopy onetimeauthSize box = box.take Overhead :=
    fixedCopy_of_le _ _ h16
  have hv : verify P (box.take Overhead) (box.drop onetimeauthSize)
      ((xorKeyStream P (setup P nonce key).2 (setup P nonce key).1
        (List.replicate 64 0)).take 32) = true := by
    simpa [verify] using htag
  simp only [Open, hfc, hv]
  rw [if_neg (by omega)]
  simp [firstBlockOf]

/-- C1: for every 32-byte key, 24-byte nonce, and message of any length
(including empty), sealing then opening with nil initial out buffers
round-trips: `Open(nil, Seal(nil, M, N, K), N, K) = (M, true)`. -/
theorem seal_open_roundtrip (P : Primitives) (message nonce key : List Nat)
    (hkey : key.length = 32) (hnonce : nonce.length = 24) :
    Open P [] (Seal P [] message nonce key) nonce key =
      (some message, true) := by
  have htg : (P.sum (cipherBody P message nonce key)
      (authKeyOf P nonce key)).length = 16 := P.sum_len _ _
  have hseal : Seal P [] message nonce key =
      P.sum (cipherBody P message nonce key) (authKeyOf P nonce key) ++
        cipherBody P message nonce key := by
    rw [seal_eq]; rfl
  have hO : Overhead = (P.sum (cipherBody P message nonce key)
      (authKeyOf P nonce key)).length := by rw [htg]; rfl
  have htake : (P.sum (cipherBody P message nonce key)
        (authKeyOf P nonce key) ++ cipherBody P message nonce key).take
        Overhead = P.sum (cipherBody P message nonce key)
        (authKeyOf P nonce key) := by
    rw [hO]; exact List.take_left _ _
  have hdrop : (P.sum (cipherBody P message nonce key)
        (authKeyOf P nonce key) ++ cipherBody P message nonce key).drop
        Overhead = cipherBody P message nonce key := by
    rw [hO]; exact List.drop_left _ _
  have h16 : Overhead ≤ (P.sum (cipherBody P message nonce key)
      (authKeyOf P nonce key) ++ cipherBody P message nonce key).length := by
    simp [hO]
  rw [hseal, open_of_tag_eq P [] _ nonce key h16 (by rw [htake, hdrop]),
    hdrop, drop_length_take, cipherBody_take, cipherBody_drop,
    xorKeyStream_involutive]
  have hfb : ((firstBlockOf P nonce key).drop 32).length = 32 := by
    simp [firstBlockOf_length]
  rw [zipWith_xor_cancel_left, hfb, List.take_take]
  simp

/-- Witness for C1 at a concrete key, nonce and message. -/
theorem seal_open_roundtrip_witness :
    (List.replicate 32 7 : List Nat).length = 32 ∧
    (List.replicate 24 5 : List Nat).length = 24 ∧
    Open testPrims []
      (Seal testPrims [] [1, 2, 3] (List.replicate 24 5)
        (List.replicate 32 7))
      (List.replicate 24 5) (List.replicate 32 7) = (some [1, 2, 3], true) :=
  ⟨by decide, by decide,
    seal_open_roundtrip testPrims [1, 2, 3] (List.replicate 24 5)
      (List.replicate 32 7) (by decide) (by decide)⟩

/-- C2: for a box of length at least `Overhead` whose claimed tag (the
first `Overhead` bytes) does not verify against the remaining bytes under
the derived authenticator key, `Open` returns not-ok and produces no
plaintext bytes. -/
theorem open_rejects_bad_tag (P : Primitives) (out box nonce key : List Nat)
    (hlen : Overhead ≤ box.length)
    (htag : box.take Overhead ≠
      P.sum (box.drop Overhead) (authKeyOf P nonce key)) :
    Open P out box nonce key = (none, false) :=
  open_of_tag_ne P out box nonce key hlen htag

/-- Witness for C2 at a concrete forged box. -/
theorem open_rejects_bad_tag_witness :
    Overhead ≤ (List.replicate 17 0 : List Nat).length ∧
    (List.replicate 17 0 : List Nat).take Overhead ≠
      testPrims.sum ((List.replicate 17 0 : List Nat).drop Overhead)
        (authKeyOf testPrims (List.replicate 24 0) (List.replicate 32 0)) ∧
    Open testPrims [] (List.replicate 17 0) (List.replicate 24 0)
      (List.replicate 32 0) = (none, false) :=
  ⟨by decide, by decide,
    open_rejects_bad_tag testPrims [] (List.replicate 17 0)
      (List.replicate 24 0) (List.replicate 32 0) (by decide) (by decide)⟩

/-- C3: sealing onto an empty out buffer yields exactly
`message.length + Overhead` bytes for every message, and the seal of the
empty message is the authenticator tag alone. -/
theorem seal_length_invariant (P : Primitives)
    (message nonce key : List Nat) :
    (Seal P [] message nonce key).length = message.length + Overhead ∧
    Seal P [] [] nonce key = P.sum [] (authKeyOf P nonce key) := by
  constructor
  · rw [seal_eq]
    simp only [List.nil_append, List.length_append, P.sum_len,
      cipherBody_length]
    rw [Nat.add_comm]
    rfl
  · rw [seal_eq]
    simp [cipherBody, xorKeyStream, keystream]

/-- C4 counterexample: at a nonce whose byte 16 is 9, the 16-byte counter
derived by `setup` does not have its low 8 bytes zero, nor its high 8 bytes
equal to the nonce's second half — the layout is the other way around. -/
theorem counter_layout_counterexample :
    ¬ ((setup testPrims (List.replicate 16 0 ++ 9 :: List.replicate 7 0)
          (List.replicate 32 0)).2.take 8 = List.replicate 8 0 ∧
       (setup testPrims (List.replicate 16 0 ++ 9 :: List.replicate 7 0)
          (List.replicate 32 0)).2.drop 8 =
        (List.replicate 16 0 ++ 9 :: List.replicate 7 0).drop 16) := by
  decide

/-- C4 amended: in both `Seal` and `Open` the 16-byte counter derived via
`setup` has its LOW 8 bytes (indices 0–7) equal to the second half of the
nonce (nonce bytes 16..23) and its HIGH 8 bytes (indices 8–15) equal to
zero. -/
theorem counter_layout (P : Primitives) (nonce key : List Nat)
    (hnonce : nonce.length = 24) :
    (setup P nonce key).2.take 8 = nonce.drop 16 ∧
    (setup P nonce key).2.drop 8 = List.replicate 8 0 := by
  have hlen : (nonce.drop 16).length = 8 := by simp [hnonce]
  have h2 : (setup P nonce key).2 = nonce.drop 16 ++ List.replicate 8 0 := by
    simp only [setup, fixedCopy, hlen]
    rw [List.take_of_length_le (by omega)]
  rw [h2]
  constructor
  · rw [← hlen]; exact List.take_left _ _
  · rw [← hlen]; exact List.drop_left _ _

/-- Witness for the amended C4 at a concrete nonce. -/
theorem counter_layout_witness :
    (List.replicate 16 0 ++ 9 :: List.replicate 7 0 : List Nat).length =
      24 ∧
    ((setup testPrims (List.replicate 16 0 ++ 9 :: List.replicate 7 0)
        (List.replicate 32 0)).2.take 8 =
      (List.replicate 16 0 ++ 9 :: List.replicate 7 0).drop 16 ∧
     (setup testPrims (List.replicate 16 0 ++ 9 :: List.replicate 7 0)
        (List.replicate 32 0)).2.drop 8 = List.replicate 8 0) :=
  ⟨by decide,
    counter_layout testPrims (List.replicate 16 0 ++ 9 :: List.replicate 7 0)
      (List.replicate 32 0) (by decide)⟩

/-- C5: the first 64-byte block is the keystream obtained by encrypting 64
zero bytes under `(subKey, counter)`; the authenticator key is its first
32 bytes; the ciphertext body XORs the first `min 32 |message|` message
bytes with the block's last 32 bytes and stream-encrypts the remainder
(from byte 32 on) under the counter with its block-index byte set to 1;
`Seal` is assembled from exactly these pieces, and `Open` (on a box that
passes the length and tag checks) derives the identical block and keystream
schedule. -/
theorem keystream_schedule (P : Primitives)
    (message box nonce key out : List Nat)
    (hbox : Overhead ≤ box.length)
    (htag : box.take Overhead =
      P.sum (box.drop Overhead) (authKeyOf P nonce key)) :
    firstBlockOf P nonce key =
      keystream P (setup P nonce key).2 (setup P nonce key).1 64 ∧
    authKeyOf P nonce key = (firstBlockOf P nonce key).take 32 ∧
    Seal P out message nonce key =
      out ++ P.sum (cipherBody P message nonce key) (authKeyOf P nonce key)
        ++ cipherBody P message nonce key ∧
    cipherBody P message nonce key =
      List.zipWith Nat.xor ((firstBlockOf P nonce key).drop 32)
        (message.take 32) ++
      xorKeyStream P ((setup P nonce key).2.set 8 1) (setup P nonce key).1
        (message.drop 32) ∧
    Open P out box nonce key =
      (some (out ++
        List.zipWith Nat.xor ((firstBlockOf P nonce key).drop 32)
          ((box.drop Overhead).take 32) ++
        xorKeyStream P ((setup P nonce key).2.set 8 1) (setup P nonce key).1
          ((box.drop Overhead).drop 32)), true) := by
  refine ⟨?_, rfl, seal_eq P out message nonce key, ?_, ?_⟩
  · simp only [firstBlockOf]
    exact xorKeyStream_zeros P _ _ 64
  · simp only [cipherBody, drop_length_take]
  · rw [open_of_tag_eq P out box nonce key hbox htag, drop_length_take]

/-- Witness for C5 at a concrete sealed box. -/
theorem keystream_schedule_witness :
    Overhead ≤ (Seal testPrims [] [4, 5] (List.replicate 24 5)
      (List.replicate 32 7)).length ∧
    (Seal testPrims [] [4, 5] (List.replicate 24 5)
        (List.replicate 32 7)).take Overhead =
      testPrims.sum ((Seal testPrims [] [4, 5] (List.replicate 24 5)
          (List.replicate 32 7)).drop Overhead)
        (authKeyOf testPrims (List.replicate 24 5) (List.replicate 32 7)) ∧
    (firstBlockOf testPrims (List.replicate 24 5) (List.replicate 32 7) =
      keystream testPrims
        (setup testPrims (List.replicate 24 5) (List.replicate 32 7)).2
        (setup testPrims (List.replicate 24 5) (List.replicate 32 7)).1 64 ∧
     authKeyOf testPrims (List.replicate 24 5) (List.replicate 32 7) =
      (firstBlockOf testPrims (List.replicate 24 5)
        (List.replicate 32 7)).take 32 ∧
     Seal testPrims [] [1, 2, 3] (List.replicate 24 5)
        (List.replicate 32 7) =
      [] ++ testPrims.sum
          (cipherBody testPrims [1, 2, 3] (List.replicate 24 5)
            (List.replicate 32 7))
          (authKeyOf testPrims (List.replicate 24 5) (List.replicate 32 7))
        ++ cipherBody testPrims [1, 2, 3] (List.replicate 24 5)
          (List.replicate 32 7) ∧
     cipherBody testPrims [1, 2, 3] (List.replicate 24 5)
        (List.replicate 32 7) =
      List.zipWith Nat.xor ((firstBlockOf testPrims (List.replicate 24 5)
          (List.replicate 32 7)).drop 32) ([1, 2, 3].take 32) ++
      xorKeyStream testPrims
        ((setup testPrims (List.replicate 24 5)
          (List.replicate 32 7)).2.set 8 1)
        (setup testPrims (List.replicate 24 5) (List.replicate 32 7)).1
        ([1, 2, 3].drop 32) ∧
     Open testPrims []
        (Seal testPrims [] [4, 5] (List.replicate 24 5)
          (List.replicate 32 7))
        (List.replicate 24 5) (List.replicate 32 7) =
      (some ([] ++
        List.zipWith Nat.xor ((firstBlockOf testPrims (List.replicate 24 5)
            (List.replicate 32 7)).drop 32)
          (((Seal testPrims [] [4, 5] (List.replicate 24 5)
              (List.replicate 32 7)).drop Overhead).take 32) ++
        xorKeyStream testPrims
          ((setup testPrims (List.replicate 24 5)
            (List.replicate 32 7)).2.set 8 1)
          (setup testPrims (List.replicate 24 5) (List.replicate 32 7)).1
          (((Seal testPrims [] [4, 5] (List.replicate 24 5)
              (List.replicate 32 7)).drop Overhead).drop 32)), true)) :=
  ⟨by decide, by decide,
    keystream_schedule testPrims [1, 2, 3]
      (Seal testPrims [] [4, 5] (List.replicate 24 5) (List.replicate 32 7))
      (List.replicate 24 5) (List.replicate 32 7) [] (by decide)
      (by decide)⟩

/-- C6: the tag produced by `Seal` is the one-time authenticator of the
full ciphertext body (and nothing else: the tag itself is excluded) under
the derived authenticator key, and the appended output is the tag followed
by the ciphertext body. -/
theorem seal_tag_structure (P : Primitives)
    (out message nonce key : List Nat) :
    Seal P out message nonce key =
      out ++ P.sum (cipherBody P message nonce key) (authKeyOf P nonce key)
        ++ cipherBody P message nonce key ∧
    (Seal P [] message nonce key).take Overhead =
      P.sum (cipherBody P message nonce key) (authKeyOf P nonce key) ∧
    (Seal P [] message nonce key).drop Overhead =
      cipherBody P message nonce key := by
  have htg : (P.sum (cipherBody P message nonce key)
      (authKeyOf P nonce key)).length = 16 := P.sum_len _ _
  have hO : Overhead = (P.sum (cipherBody P message nonce key)
      (authKeyOf P nonce key)).length := by rw [htg]; rfl
  have hseal : Seal P [] message nonce key =
      P.sum (cipherBody P message nonce key) (authKeyOf P nonce key) ++
        cipherBody P message nonce key := by
    rw [seal_eq]; rfl
  refine ⟨seal_eq P out message nonce key, ?_, ?_⟩
  · rw [hseal, hO]; exact List.take_left _ _
  · rw [hseal, hO]; exact List.drop_left _ _

/-- C7: a box shorter than `Overhead` is rejected immediately: `Open`
returns not-ok with no output. -/
theorem open_rejects_short_box (P : Primitives)
    (out box nonce key : List Nat) (h : box.length < Overhead) :
    Open P out box nonce key = (none, false) :=
  open_of_short P out box nonce key h

/-- Witness for C7 at a concrete 3-byte box. -/
theorem open_rejects_short_box_witness :
    ([1, 2, 3] : List Nat).length < Overhead ∧
    Open testPrims [] [1, 2, 3] (List.replicate 24 0)
      (List.replicate 32 0) = (none, false) :=
  ⟨by decide,
    open_rejects_short_box testPrims [] [1, 2, 3] (List.replicate 24 0)
      (List.replicate 32 0) (by decide)⟩

/-- C8: for every input box, nonce and key — of any lengths, including
truncated and corrupted boxes — the bounds-checked evaluation of `Open`
never reaches an out-of-bounds access: it always returns normally, with the
same result as `Open`, so a bad box fails only via the length check or the
tag check. -/
theorem open_in_bounds (P : Primitives) (out box nonce key : List Nat) :
    OpenChecked P out box nonce key = some (Open P out box nonce key) := by
  simp only [OpenChecked, Open]
  split_ifs <;>
    first
      | rfl
      | (exfalso;
         simp only [List.length_take, List.length_drop, xorKeyStream_length,
           List.length_replicate, Overhead, onetimeauthSize, not_and,
           not_le] at *;
         omega)

/-- C9: `Seal` and `Open` append to the caller-provided out buffer: the
`sliceForAppend` head is the prior contents followed by the fresh tail, the
result of `Seal` is the prior `out` followed by the output built on an
empty buffer, and likewise for the message returned by a successful
`Open`. -/
theorem append_semantics (P : Primitives)
    (out message box nonce key : List Nat) (n : Nat) :
    (sliceForAppend out n).1 = out ++ (sliceForAppend out n).2 ∧
    Seal P out message nonce key = out ++ Seal P [] message nonce key ∧
    (Open P out box nonce key).1 =
      (Open P [] box nonce key).1.map (fun m => out ++ m) ∧
    (Open P out box nonce key).2 = (Open P [] box nonce key).2 := by
  refine ⟨by simp [sliceForAppend], by simp [seal_eq], ?_, ?_⟩ <;>
  · simp only [Open]
    split_ifs <;> simp

/-- C10: on every failure path of `Open` — a box shorter than `Overhead`
or a failed tag verification — the returned message is nil (`none`), not
the caller's buffer, and nothing is appended to the out buffer. -/
theorem open_failure_nil (P : Primitives) (out box nonce key : List Nat)
    (h : box.length < Overhead ∨
      box.take Overhead ≠
        P.sum (box.drop Overhead) (authKeyOf P nonce key)) :
    Open P out box nonce key = (none, false) := by
  rcases h with h | h
  · exact open_of_short P out box nonce key h
  · rcases Nat.lt_or_ge box.length Overhead with h2 | h2
    · exact open_of_short P out box nonce key h2
    · exact open_of_tag_ne P out box nonce key h2 h

/-- Witness for C10 at a concrete empty box. -/
theorem open_failure_nil_witness :
    (([] : List Nat).length < Overhead ∨
      ([] : List Nat).take Overhead ≠
        testPrims.sum (([] : List Nat).drop Overhead)
          (authKeyOf testPrims (List.replicate 24 0)
            (List.replicate 32 0))) ∧
    Open testPrims [7, 7] [] (List.replicate 24 0) (List.replicate 32 0) =
      (none, false) :=
  ⟨Or.inl (by decide),
    open_failure_nil testPrims [7, 7] [] (List.replicate 24 0)
      (List.replicate 32 0) (Or.inl (by decide))⟩

end Secretbox
